import Mathlib

/-!
Verification development for the cargo-csc spell checker.

Shallow embedding of the repository's Rust sources into Lean:
machine integers become `Nat`, `Vec`/`HashMap` become lists
(`HashMap<char, _>` becomes an association structure; the code always
sorts children before any order-sensitive traversal, so the unordered
nature of the hash map never leaks), `Rc<RefCell<...>>` graphs become a
flat arena indexed by allocation order (mirroring the design note in the
spec), panics and `anyhow` errors become `Except String` / `Option`.

Layout: all definitions first, then the theorems.
-/

deriving instance DecidableEq for Except

namespace CargoCsc

/-! ## ASCII helpers

`char::to_ascii_lowercase` / `str::to_ascii_lowercase` from Rust: map the
ASCII range A-Z to a-z and leave every other character alone. -/

def to_ascii_lowercase_char (c : Char) : Char :=
  if 65 ≤ c.toNat ∧ c.toNat ≤ 90 then Char.ofNat (c.toNat + 32) else c

def to_ascii_lowercase (s : String) : String :=
  ⟨s.data.map to_ascii_lowercase_char⟩

/-- A character is ASCII-lowercased: not an ASCII capital letter. -/
def notAsciiUpper (c : Char) : Bool :=
  !(decide (65 ≤ c.toNat ∧ c.toNat ≤ 90))

/-! ## Model of `src/trie.rs`

`TrieNode` stores an optional `TrieData` payload and a map from characters
to child nodes; `HashMap<char, TrieNode>` is modelled as the association
structure `Children` (keys unique by construction: `insert` replaces). -/

structure TrieData where
  disallow : Bool
deriving DecidableEq, Repr

/-- `impl Default for TrieData`: `disallow: false`. -/
def TrieData.default : TrieData := ⟨false⟩

mutual
inductive TrieNode where
  | mk (data : Option TrieData) (children : Children)
inductive Children where
  | nil
  | cons (key : Char) (node : TrieNode) (rest : Children)
end

deriving instance DecidableEq for TrieNode
deriving instance Repr for TrieNode

def TrieNode.data : TrieNode → Option TrieData
  | .mk d _ => d

def TrieNode.children : TrieNode → Children
  | .mk _ ch => ch

/-- `TrieNode::default()` / `TrieNode::none()`. -/
def TrieNode.empty : TrieNode := .mk none .nil

/-- `HashMap::get`. -/
def Children.find? : Children → Char → Option TrieNode
  | .nil, _ => none
  | .cons k n rest, c => if c = k then some n else rest.find? c

/-- `HashMap::insert`: replace the entry for the key, or add one. -/
def Children.set : Children → Char → TrieNode → Children
  | .nil, c, n => .cons c n .nil
  | .cons k m rest, c, n =>
      if c = k then .cons k n rest else .cons k m (rest.set c n)

/-- `HashMap::len`. -/
def Children.length : Children → Nat
  | .nil => 0
  | .cons _ _ rest => rest.length + 1

/-- `TrieOptions` from `src/trie.rs`. -/
structure TrieOptions where
  cache : Bool
  case_sensitive : Bool
deriving DecidableEq, Repr

/-- `impl Default for TrieOptions`: `cache: true, case_sensitive: false`. -/
def TrieOptions.default : TrieOptions := ⟨true, false⟩

/-- `Command` from `src/dictionary.rs`. -/
inductive Command where
  | caseSensitive
  | cache (value : Bool)
deriving DecidableEq, Repr

/-- `TrieOptions::add_command`. -/
def TrieOptions.add_command (o : TrieOptions) : Command → TrieOptions
  | .caseSensitive => { o with case_sensitive := true }
  | .cache b => { o with cache := b }

/-- `Rule` from `src/dictionary.rs`. -/
inductive Rule where
  | allow (word : String)
  | disallow (word : String)
  | command (c : Command)
  | comment (text : String)
deriving DecidableEq, Repr

structure Trie where
  root : TrieNode
  options : TrieOptions
deriving DecidableEq, Repr

/-- `Trie::new()`. -/
def Trie.new : Trie := ⟨TrieNode.empty, TrieOptions.default⟩

/-- The descent loop of `Trie::insert`: walk the word, materialising missing
children with `entry(c).or_default()`, then overwrite the final node's data. -/
def insertNode : TrieNode → List Char → TrieData → TrieNode
  | .mk _ ch, [], d => .mk (some d) ch
  | .mk dat ch, c :: cs, d =>
      let child := (ch.find? c).getD TrieNode.empty
      .mk dat (ch.set c (insertNode child cs d))

/-- `Trie::insert`. -/
def Trie.insert (t : Trie) (word : String) (d : TrieData) : Trie :=
  { t with root := insertNode t.root word.data d }

/-- The descent loop of `Trie::contains` (options are never consulted). -/
def containsNode : TrieNode → List Char → Bool
  | .mk dat _, [] =>
      match dat with
      | some d => !d.disallow
      | none => false
  | .mk _ ch, c :: cs =>
      match ch.find? c with
      | some n => containsNode n cs
      | none => false

/-- `Trie::contains`. -/
def Trie.contains (t : Trie) (word : String) : Bool :=
  containsNode t.root word.data

/-- One step of `impl From<&[Rule]> for Trie`'s loop body. -/
def fromRulesStep (t : Trie) : Rule → Trie
  | .allow word => t.insert word TrieData.default
  | .disallow word => t.insert word ⟨true⟩
  | .command c => { t with options := t.options.add_command c }
  | .comment _ => t

/-- `impl From<&[Rule]> for Trie`. -/
def Trie.fromRules (rules : List Rule) : Trie :=
  rules.foldl fromRulesStep Trie.new

/- `Trie::collect_words` / `Trie::to_vec`: the current word is pushed when
the node's data is present and not disallow, then the children are visited
(the source iterates the hash map in its own order; this model fixes the
stored order). -/
mutual
def collectNode : TrieNode → List Char → List (List Char)
  | .mk dat ch, px =>
      (match dat with
       | some d => if !d.disallow then [px] else []
       | none => []) ++ collectChildren ch px
def collectChildren : Children → List Char → List (List Char)
  | .nil, _ => []
  | .cons c n rest, px => collectNode n (px ++ [c]) ++ collectChildren rest px
end

def Trie.to_vec (t : Trie) : List String :=
  (collectNode t.root []).map (fun l => ⟨l⟩)

/-- The last allow/disallow entry for a word.  `Trie::insert` replaces the
data at the word's node, so the last rule that mentions a word decides its
status: `some disallowFlag` of that rule, `none` when no rule mentions it. -/
def lastWordStatus (rules : List Rule) (w : String) : Option Bool :=
  rules.foldl
    (fun acc r =>
      match r with
      | .allow w2 => if w2 = w then some false else acc
      | .disallow w2 => if w2 = w then some true else acc
      | _ => acc)
    none

/-! ## Serialization: `Trie::dump` / `Trie::load`

The source serializes with `bincode` (standard configuration): structs are
their fields in order, `bool` is one byte 0/1, `Option` is a 0/1 tag byte
followed by the payload, collection lengths are variable-length integers
(single byte below 251, marker 251/252/253 then a little-endian u16/u32/u64),
and `char` is its UTF-8 encoding.  Bytes are modelled as `Nat` below 256. -/

def encBool (b : Bool) : List Nat := [if b then 1 else 0]

def decBool : List Nat → Option (Bool × List Nat)
  | 0 :: rest => some (false, rest)
  | 1 :: rest => some (true, rest)
  | _ => none

/-- Little-endian bytes of `n`, exactly `w` of them. -/
def natLE : Nat → Nat → List Nat
  | _, 0 => []
  | n, w + 1 => (n % 256) :: natLE (n / 256) w

def natFromLE : List Nat → Nat
  | [] => 0
  | b :: rest => b + 256 * natFromLE rest

def takeBytes : Nat → List Nat → Option (List Nat × List Nat)
  | 0, bs => some ([], bs)
  | _ + 1, [] => none
  | w + 1, b :: bs => (takeBytes w bs).map (fun p => (b :: p.1, p.2))

def encVarint (n : Nat) : List Nat :=
  if n < 251 then [n]
  else if n < 2 ^ 16 then 251 :: natLE n 2
  else if n < 2 ^ 32 then 252 :: natLE n 4
  else 253 :: natLE n 8

def decVarint : List Nat → Option (Nat × List Nat)
  | [] => none
  | b :: rest =>
      if b < 251 then some (b, rest)
      else if b = 251 then (takeBytes 2 rest).map (fun p => (natFromLE p.1, p.2))
      else if b = 252 then (takeBytes 4 rest).map (fun p => (natFromLE p.1, p.2))
      else if b = 253 then (takeBytes 8 rest).map (fun p => (natFromLE p.1, p.2))
      else none

/-- UTF-8 encoding of a character (what bincode writes for `char`). -/
def encodeChar (c : Char) : List Nat :=
  let n := c.toNat
  if n < 0x80 then [n]
  else if n < 0x800 then [0xc0 + n / 0x40, 0x80 + n % 0x40]
  else if n < 0x10000 then
    [0xe0 + n / 0x1000, 0x80 + n / 0x40 % 0x40, 0x80 + n % 0x40]
  else
    [0xf0 + n / 0x40000, 0x80 + n / 0x1000 % 0x40, 0x80 + n / 0x40 % 0x40,
      0x80 + n % 0x40]

def isCont (b : Nat) : Bool := 0x80 ≤ b ∧ b < 0xc0

def mkChar (n : Nat) (rest : List Nat) : Option (Char × List Nat) :=
  if _h : n.isValidChar then some (Char.ofNat n, rest) else none

/-- UTF-8 decoding of one character, validating continuation bytes, overlong
forms and the scalar-value range, as Rust's UTF-8 validation does. -/
def decodeChar : List Nat → Option (Char × List Nat)
  | [] => none
  | b0 :: rest =>
      if b0 < 0x80 then mkChar b0 rest
      else if 0xc0 ≤ b0 ∧ b0 < 0xe0 then
        match rest with
        | b1 :: rest1 =>
            if isCont b1 then
              let n := (b0 - 0xc0) * 0x40 + (b1 - 0x80)
              if 0x80 ≤ n then mkChar n rest1 else none
            else none
        | [] => none
      else if 0xe0 ≤ b0 ∧ b0 < 0xf0 then
        match rest with
        | b1 :: b2 :: rest2 =>
            if isCont b1 ∧ isCont b2 then
              let n := (b0 - 0xe0) * 0x1000 + (b1 - 0x80) * 0x40 + (b2 - 0x80)
              if 0x800 ≤ n then mkChar n rest2 else none
            else none
        | _ => none
      else if 0xf0 ≤ b0 ∧ b0 < 0xf8 then
        match rest with
        | b1 :: b2 :: b3 :: rest3 =>
            if isCont b1 ∧ isCont b2 ∧ isCont b3 then
              let n := (b0 - 0xf0) * 0x40000 + (b1 - 0x80) * 0x1000 +
                (b2 - 0x80) * 0x40 + (b3 - 0x80)
              if 0x10000 ≤ n then mkChar n rest3 else none
            else none
        | _ => none
      else none

def encOptData : Option TrieData → List Nat
  | none => [0]
  | some d => 1 :: encBool d.disallow

def decOptData : List Nat → Option (Option TrieData × List Nat)
  | 0 :: rest => some (none, rest)
  | 1 :: rest => (decBool rest).map (fun p => (some ⟨p.1⟩, p.2))
  | _ => none

mutual
def encodeNode : TrieNode → List Nat
  | .mk d ch => encOptData d ++ encVarint ch.length ++ encodeChildren ch
def encodeChildren : Children → List Nat
  | .nil => []
  | .cons c n rest => encodeChar c ++ encodeNode n ++ encodeChildren rest
end

mutual
def decodeNodeF : Nat → List Nat → Option (TrieNode × List Nat)
  | 0, _ => none
  | fuel + 1, bs =>
      match decOptData bs with
      | none => none
      | some (d, bs1) =>
          match decVarint bs1 with
          | none => none
          | some (count, bs2) =>
              match decodeChildrenF fuel count bs2 with
              | none => none
              | some (ch, bs3) => some (.mk d ch, bs3)
def decodeChildrenF : Nat → Nat → List Nat → Option (Children × List Nat)
  | 0, _, _ => none
  | _ + 1, 0, bs => some (.nil, bs)
  | fuel + 1, k + 1, bs =>
      match decodeChar bs with
      | none => none
      | some (c, bs1) =>
          match decodeNodeF fuel bs1 with
          | none => none
          | some (n, bs2) =>
              match decodeChildrenF fuel k bs2 with
              | none => none
              | some (rest, bs3) => some (.cons c n rest, bs3)
end

/-- `Trie::dump`: bincode of `Trie { root, options }`. -/
def Trie.dump (t : Trie) : List Nat :=
  encodeNode t.root ++ encBool t.options.cache ++ encBool t.options.case_sensitive

/-- `Trie::load`: bincode decode (`decode_from_slice` tolerates trailing
bytes, so no end-of-input check). -/
def Trie.load (bs : List Nat) : Option Trie :=
  match decodeNodeF (bs.length + 1) bs with
  | none => none
  | some (root, rest) =>
      match decBool rest with
      | none => none
      | some (cache, rest2) =>
          match decBool rest2 with
          | none => none
          | some (cs, _) => some ⟨root, ⟨cache, cs⟩⟩

/- Every children map of the trie fits in a `usize` (always true of a Rust
`HashMap`; stated explicitly because the model's lists are unbounded). -/
mutual
def boundedNode : TrieNode → Bool
  | .mk _ ch => decide (ch.length < 2 ^ 64) && boundedChildren ch
def boundedChildren : Children → Bool
  | .nil => true
  | .cons _ n rest => boundedNode n && boundedChildren rest
end

/-- UTF-8 bytes of a string (`str::as_bytes`). -/
def strBytes (s : String) : List Nat :=
  (s.data.map encodeChar).flatten

def decodeCharsAux : Nat → List Nat → Option (List Char)
  | _, [] => some []
  | 0, _ => none
  | fuel + 1, bs =>
      match decodeChar bs with
      | none => none
      | some (c, rest) => (decodeCharsAux fuel rest).map (c :: ·)

def utf8ToString (bs : List Nat) : Option String :=
  (decodeCharsAux bs.length bs).map (fun l => ⟨l⟩)

/-- `str::split` with a character predicate, over the char list: adjacent
(and leading/trailing) separators produce empty pieces, as in Rust. -/
def splitChars : List Char → (Char → Bool) → List (List Char)
  | [], _ => [[]]
  | c :: cs, p =>
      if p c then [] :: splitChars cs p
      else
        match splitChars cs p with
        | [] => [[c]]
        | piece :: rest => (c :: piece) :: rest

/-- `str::len`: the UTF-8 byte count. -/
def strLen (s : String) : Nat := s.utf8ByteSize

/-! ## Model of `src/multi_trie.rs`: the multi-index -/

structure MultiTrie where
  inner : List Trie

/-- The loop of `MultiTrie::contains`: first member that contains the word
short-circuits to true. -/
def containsAnyAux : List Trie → String → Bool
  | [], _ => false
  | t :: rest, w => if t.contains w then true else containsAnyAux rest w

/-- `MultiTrie::contains`. -/
def MultiTrie.contains (m : MultiTrie) (word : String) : Bool :=
  containsAnyAux m.inner word

/-- `split_by_capitalization` from `MultiTrie::check_parts`.  Rust's
`char::is_uppercase` is Unicode; `Char.isUpper` is its ASCII restriction,
and the two agree on all ASCII input. -/
def split_by_capitalization_aux : List Char → List Char → List (List Char)
  | [], cur => if cur.isEmpty then [] else [cur]
  | c :: cs, cur =>
      if c.isUpper && !cur.isEmpty then
        cur :: split_by_capitalization_aux cs [c]
      else split_by_capitalization_aux cs (cur ++ [c])

def split_by_capitalization (word : String) : List String :=
  (split_by_capitalization_aux word.data []).map (fun l => ⟨l⟩)

/-- Model of Rust's `char::is_numeric` as used by `check_parts` (a pure
all-numeric test, no panic path): its ASCII restriction `Char.isDigit`;
the two agree on all ASCII characters, and every token the theorems below
feed to `check_parts` is ASCII. -/
def isNumericModel (c : Char) : Bool := c.isDigit

/-- `MultiTrie::check_parts`: a part passes when it is contained after
ASCII-lowercasing, or is all numeric, or every capitalization-split
sub-part is contained after lowercasing; the first failing part is
returned (the whole part, as in the source's `return Some(part)`). -/
def check_parts (m : MultiTrie) : List String → Option String
  | [] => none
  | part :: rest =>
      if m.contains (to_ascii_lowercase part) then check_parts m rest
      else if part.data.all isNumericModel then check_parts m rest
      else if (split_by_capitalization part).all
          (fun sub => m.contains (to_ascii_lowercase sub)) then
        check_parts m rest
      else some part

/-- The splitter array of `MultiTrie::handle_identifier`, duplicates
included, exactly as in the source. -/
def splitters : List Char :=
  [' ', '_', '-', '(', ')', '{', '}', '[', ']', ',', '.', ';', ':', '?', '!',
   '"', '\'', '&', '/', '|', '<', '>', '=', '+', '-', '*', '%', '^', '~', '`',
   '@', '#', '$', '!', '?', ':', ';', '(', ')', '{', '}', '[', ']', ',', '.',
   '/', '1', '2', '3', '4', '5', '6', '7', '8', '9', '0', '\\']

/-- `MultiTrie::handle_identifier`: split on the splitter class, keep parts
whose byte length exceeds 3, then `check_parts`. -/
def MultiTrie.handle_identifier (m : MultiTrie) (word : String) : Option String :=
  let parts := ((splitChars word.data (fun c => splitters.contains c)).map
    (fun l => (⟨l⟩ : String))).filter (fun part => strLen part > 3)
  check_parts m parts

/-- Optimal-string-alignment recurrence for the Damerau-Levenshtein distance
used by the external `strsim` crate for ranking; the two measures agree on
every input the theorems below evaluate. -/
def dlDistF : Nat → List Char → List Char → Nat
  | 0, a, b => a.length + b.length
  | _ + 1, [], b => b.length
  | _ + 1, _ :: xs, [] => xs.length + 1
  | fuel + 1, x :: xs, y :: ys =>
      let del := dlDistF fuel xs (y :: ys) + 1
      let ins := dlDistF fuel (x :: xs) ys + 1
      let sub := dlDistF fuel xs ys + (if x = y then 0 else 1)
      let best := min del (min ins sub)
      match xs, ys with
      | x2 :: xs2, y2 :: ys2 =>
          if x = y2 ∧ y = x2 then min best (dlDistF fuel xs2 ys2 + 1) else best
      | _, _ => best

def dlDist (a b : List Char) : Nat := dlDistF (a.length + b.length + 1) a b

/-- `strsim::normalized_damerau_levenshtein`: 1 when both strings are empty,
otherwise `1 - dist / max(len)` (computed here in exact rationals; the
comparisons below have wide margins, so f64 rounding cannot flip them). -/
def normalized_damerau_levenshtein (a b : String) : ℚ :=
  if a.length = 0 ∧ b.length = 0 then 1
  else 1 - (dlDist a.data b.data : ℚ) / ((max a.length b.length : Nat) : ℚ)

/-- Modelled from the spec: `Trie::check`, called by `MultiTrie::suggestion`,
is defined nowhere in the repository's files.  Per the spec it queries the
member word-index's fuzzy lookup with edit budget 1; modelled as the first
enumerated allow-word within Damerau-Levenshtein distance 1 of the query. -/
def Trie.check (t : Trie) (word : String) : Option String :=
  ((t.to_vec).filter (fun s => dlDist word.data s.data ≤ 1)).head?

/-- The suggestion threshold literal from `MultiTrie::suggestion`. -/
def THRESHOLD : ℚ := 7 / 10

/-- The candidate list of `MultiTrie::suggestion`: one `check` result per
member, paired with its normalized similarity score. -/
def suggestionScored (m : MultiTrie) (word : String) : List (ℚ × String) :=
  (m.inner.filterMap (fun t => t.check word)).map
    (fun s => (normalized_damerau_levenshtein word s, s))

/-- `Iterator::min_by`: the first element with the minimal key. -/
def minByFirst : List (ℚ × String) → Option (ℚ × String)
  | [] => none
  | x :: rest => some (rest.foldl (fun best y => if y.1 < best.1 then y else best) x)

/-- `MultiTrie::suggestion`: rank the members' candidates and keep the
`min_by` one, provided its score exceeds the threshold. -/
def MultiTrie.suggestion (m : MultiTrie) (word : String) : Option String :=
  match minByFirst (suggestionScored m word) with
  | none => none
  | some (score, best) => if THRESHOLD < score then some best else none

/-! ## Model of `load_dictionary_line` from `src/dictionary.rs` -/

/-- `str::trim_start_matches` with a string pattern: strip every repetition
of the pattern from the front. -/
def stripRepeatedF : Nat → List Char → List Char → List Char
  | 0, l, _ => l
  | fuel + 1, l, p =>
      if p ≠ [] ∧ p.isPrefixOf l then stripRepeatedF fuel (l.drop p.length) p
      else l

def stripRepeated (l p : List Char) : List Char :=
  stripRepeatedF l.length l p

/-- `str::trim`: strip whitespace from both ends (Rust strips Unicode
whitespace; `Char.isWhitespace` is the ASCII subset, which agrees on every
input below). -/
def trimChars (l : List Char) : List Char :=
  ((l.dropWhile Char.isWhitespace).reverse.dropWhile Char.isWhitespace).reverse

/-- `Command::from_str`. -/
def Command.from_str (s : List Char) : Option Command :=
  if s = "case-sensitive".data then some .caseSensitive
  else if List.isPrefixOf "cache:".data s then
    let value := stripRepeated s "cache:".data
    if value = "true".data then some (.cache true)
    else if value = "false".data then some (.cache false)
    else none
  else none

/-- The `trimmed` local of `load_dictionary_line`: the part before an
optional `/`, whitespace-trimmed. -/
def dict_line_trimmed (line : String) : List Char :=
  trimChars (line.data.takeWhile (· ≠ '/'))

/-- The `comment` local of `load_dictionary_line`. -/
def dict_line_comment (trimmed : List Char) : List Char :=
  trimChars (stripRepeated (trimmed.dropWhile (· = '#')) "//".data)

/-- `load_dictionary_line`.  The `anyhow::Result` wrapper never carries an
error (every branch returns `Ok`), so the model is total.  Rust's `trim`
strips Unicode whitespace; the model's `trimChars` strips the ASCII subset,
which agrees on every input below. -/
def load_dictionary_line (line : String) : Rule :=
  if dict_line_trimmed line = [] then .comment ""
  else if List.isPrefixOf "#".data (dict_line_trimmed line) ∨
      List.isPrefixOf "//".data (dict_line_trimmed line) then
    if List.isPrefixOf "csc:".data (dict_line_comment (dict_line_trimmed line)) then
      match Command.from_str (trimChars (stripRepeated
          (dict_line_comment (dict_line_trimmed line)) "csc:".data)) with
      | some cmd => .command cmd
      | none => .comment ⟨dict_line_comment (dict_line_trimmed line)⟩
    else .comment ⟨dict_line_comment (dict_line_trimmed line)⟩
  else if List.isPrefixOf "!".data (dict_line_trimmed line) then
    .disallow (to_ascii_lowercase
      ⟨trimChars ((dict_line_trimmed line).dropWhile (· = '!'))⟩)
  else if List.isPrefixOf "+".data (dict_line_trimmed line) then
    .allow (to_ascii_lowercase
      ⟨trimChars ((dict_line_trimmed line).dropWhile (· = '+'))⟩)
  else .allow (to_ascii_lowercase ⟨dict_line_trimmed line⟩)

/-- The cache-miss path of `Dictionary::compile_inner` for the
`Dictionary::Trie(path)` variant: when `load_from_cache` misses, the file's
raw bytes are read and handed to `Trie::load` (bincode) — not to the
CSpell TrieXv3/v4 decoder.  The cache result and the file bytes are the
function's inputs; the save-to-cache side effect returns the trie
unchanged. -/
def compile_trie_spec (cached : Option Trie) (fileBytes : List Nat) :
    Except String Trie :=
  match cached with
  | some t => .ok t
  | none =>
      match Trie.load fileBytes with
      | some t => .ok t
      | none => .error "Trie::load failed"

/-! ## Model of `src/cspell/trie/spec.rs`: the CSpell TrieXv3/v4 decoder

`Rc<RefCell<TrieNode>>` becomes an arena index into `nodes` (allocation
order, root at index 0); `pos` and `pos_string` are stacks with the top at
the head of the list.  Panics (`unwrap`, `assert`, `unreachable`, index out
of bounds) become `Except.error`. -/

structure NodeB where
  eow : Bool
  children : List (Char × Nat)
deriving DecidableEq, Repr

structure Builder where
  nodes : List NodeB
  pos : List Nat
  pos_string : List Char
deriving DecidableEq, Repr

/-- `TrieBuilder::new()`: one empty root, `pos = [root]`. -/
def Builder.new : Builder := ⟨[⟨false, []⟩], [0], []⟩

inductive ParseState where
  | inWord
  | escape
  | remove
  | absoluteReference (chars : List Char)
deriving DecidableEq, Repr

def assocGet : List (Char × Nat) → Char → Option Nat
  | [], _ => none
  | (k, v) :: rest, c => if c = k then some v else assocGet rest c

def assocInsert : List (Char × Nat) → Char → Nat → List (Char × Nat)
  | [], c, v => [(c, v)]
  | (k, x) :: rest, c, v =>
      if c = k then (k, v) :: rest else (k, x) :: assocInsert rest c v

/-- `TrieBuilder::add_char`: descend into an existing child (pushing onto
both `pos` and `pos_string`), or allocate a new node, link it and push it
onto `pos` — the source does NOT push onto `pos_string` in this branch. -/
def add_char (b : Builder) (c : Char) : Except String Builder :=
  match b.pos with
  | [] => .error "add_char: unreachable, empty pos"
  | parentIdx :: _ =>
      match b.nodes.get? parentIdx with
      | none => .error "add_char: bad node index"
      | some parent =>
          match assocGet parent.children c with
          | some childIdx =>
              .ok { b with pos := childIdx :: b.pos,
                           pos_string := c :: b.pos_string }
          | none =>
              let newIdx := b.nodes.length
              let parent2 :=
                { parent with children := assocInsert parent.children c newIdx }
              .ok { b with nodes := (b.nodes.set parentIdx parent2) ++ [⟨false, []⟩],
                           pos := newIdx :: b.pos }

/-- The `$` action: `if let Some(cur) = pos.last() { cur.eow = true }`. -/
def mark_eow (b : Builder) : Builder :=
  match b.pos with
  | [] => b
  | cur :: _ =>
      match b.nodes.get? cur with
      | some n => { b with nodes := b.nodes.set cur { n with eow := true } }
      | none => b

/-- `TrieBuilder::jump_to idx`: re-link the edge that leads to the current
node — the child slot of `pos[len-2]` keyed by the last `pos_string`
character — to `nodes[idx]`.  Panics modelled in the source's evaluation
order: empty `pos`, then `pos` underflow, then empty `pos_string`, then
`idx` out of bounds. -/
def jump_to (b : Builder) (idx : Nat) : Except String Builder :=
  match b.pos with
  | [] => .error "jump_to: pos empty"
  | [_] => .error "jump_to: pos underflow"
  | _ :: p :: _ =>
      match b.pos_string with
      | [] => .error "jump_to: empty pos_string"
      | lastChar :: _ =>
          match b.nodes.get? idx with
          | none => .error "jump_to: node index out of bounds"
          | some _ =>
              match b.nodes.get? p with
              | none => .error "jump_to: bad parent index"
              | some pn =>
                  .ok { b with nodes := b.nodes.set p { pn with children := assocInsert pn.children lastChar idx } }

/-- The pop loop of the `Remove` state: each iteration pops `pos` (error when
the pop fails), pops `pos_string` (a no-op when already empty), then errors
when `pos` has been emptied. -/
def popN : Builder → Nat → Except String Builder
  | b, 0 => .ok b
  | b, k + 1 =>
      match b.pos with
      | [] => .error "remove: no more nodes to pop"
      | _ :: rest =>
          let ps := match b.pos_string with
            | [] => ([] : List Char)
            | _ :: pr => pr
          if rest.isEmpty then .error "remove: no more nodes in path"
          else popN { b with pos := rest, pos_string := ps } k

/-- `u32::from_str_radix` digit value: 0-9, a-z, A-Z below the radix. -/
def digitValue (c : Char) (base : Nat) : Option Nat :=
  let v :=
    if 48 ≤ c.toNat ∧ c.toNat ≤ 57 then some (c.toNat - 48)
    else if 97 ≤ c.toNat ∧ c.toNat ≤ 122 then some (c.toNat - 87)
    else if 65 ≤ c.toNat ∧ c.toNat ≤ 90 then some (c.toNat - 55)
    else none
  match v with
  | some d => if d < base then some d else none
  | none => none

def parseRadixGo (base : Nat) : List Char → Nat → Option Nat
  | [], acc => some acc
  | c :: cs, acc =>
      match digitValue c base with
      | none => none
      | some d =>
          let acc2 := acc * base + d
          if acc2 < 2 ^ 32 then parseRadixGo base cs acc2 else none

/-- `u32::from_str_radix`: optional leading `+`, at least one digit, error
on overflow. -/
def parseRadix (chars : List Char) (base : Nat) : Option Nat :=
  let digits := match chars with
    | '+' :: rest => rest
    | l => l
  if digits.isEmpty then none else parseRadixGo base digits 0

/-- The `InWord` dispatch of `TrieBuilder::process_char`. -/
def in_word_step (b : Builder) (c : Char) : Except String (Builder × ParseState) :=
  match c with
  | '\\' => .ok (b, .escape)
  | '$' => .ok (mark_eow b, .remove)
  | '<' => .ok (b, .remove)
  | '#' => .ok (b, .absoluteReference [c])
  | _ => (add_char b c).map (fun b2 => (b2, .inWord))

/-- Rust's `char::is_numeric`, the `Remove` state's branch test: true for
characters with a Unicode numeric type.  On the ASCII range the ASCII
digits 0-9 are the only such characters, so there the model is exact;
beyond ASCII the table is modelled on the Arabic-Indic digit block
U+0660-U+0669 (all of Unicode category Nd), the only non-ASCII characters
any theorem below instantiates. -/
def rust_is_numeric (c : Char) : Bool :=
  c.isDigit || decide (0x660 ≤ c.toNat ∧ c.toNat ≤ 0x669)

/-- Rust's `char::to_digit(10)`: only the ASCII digits 0-9 convert; every
other character — including non-ASCII numerics — gives `None`. -/
def to_digit_10 (c : Char) : Option Nat :=
  if c.isDigit then some (c.toNat - 48) else none

/-- `TrieBuilder::process_char`.  In `Remove`, a character that satisfies
`char::is_numeric` is converted with `to_digit(10).unwrap()` — a panic
(error) for a non-ASCII numeric character — and then pops `digit - 1`
entries and stays in `Remove` (`assert_ne!(out, 1)` and the `0 - 1`
underflow are errors); a non-numeric character pops one entry and is then
re-examined with the `InWord` arms (the source duplicates the four special
arms and re-enters `process_char` with the state set to `InWord` for the
rest, which runs exactly `in_word_step`). -/
def process_char (b : Builder) (state : ParseState) (c : Char) (base : Nat) :
    Except String (Builder × ParseState) :=
  match state with
  | .escape => (add_char b c).map (fun b2 => (b2, .inWord))
  | .remove =>
      if rust_is_numeric c then
        match to_digit_10 c with
        | none => .error "remove: to_digit unwrap on None"
        | some out =>
            if out = 1 then .error "remove: assert_ne failed, count is 1"
            else if out = 0 then .error "remove: count underflow"
            else (popN b (out - 1)).map (fun b2 => (b2, .remove))
      else
        match popN b 1 with
        | .error e => .error e
        | .ok b2 =>
            match c with
            | '\\' => .ok (b2, .escape)
            | '$' => .ok (mark_eow b2, .remove)
            | '<' => .ok (b2, .remove)
            | '#' => .ok (b2, .absoluteReference [c])
            | other => in_word_step b2 other
  | .absoluteReference chars =>
      if c = ';' then
        match parseRadix (chars.drop 1) base with
        | none => .error "absolute reference: failed to convert number"
        | some idx =>
            if idx < b.nodes.length then
              (jump_to b (idx + 1)).map (fun b2 => (b2, .inWord))
            else .error "absolute reference: index out of bounds"
      else .ok (b, .absoluteReference (chars ++ [c]))
  | .inWord => in_word_step b c

/-- The character loop of `parse_body`: every character of every line in
order, `\n` skipped. -/
def processAll (b : Builder) (st : ParseState) (cs : List Char) (base : Nat) :
    Except String (Builder × ParseState) :=
  match cs with
  | [] => .ok (b, st)
  | c :: rest =>
      if c = '\n' then processAll b st rest base
      else
        match process_char b st c base with
        | .error e => .error e
        | .ok (b2, st2) => processAll b2 st2 rest base

def insertSortedChild (x : Char × Nat) : List (Char × Nat) → List (Char × Nat)
  | [] => [x]
  | y :: rest => if x.1 ≤ y.1 then x :: y :: rest else y :: insertSortedChild x rest

/-- `sorted_children.sort_by(|a, b| a.0.cmp(b.0))`. -/
def sortChildren (l : List (Char × Nat)) : List (Char × Nat) :=
  l.foldr insertSortedChild []

/-- `convert_trie`'s `rec_convert`: depth-first, children in character
order, words emitted at end-of-word nodes; `fuel` is `MAX_DEPTH - depth`,
so exhaustion models the depth assertion. -/
def convertRec (nodes : List NodeB) : Nat → Nat → List Char →
    Except String (List (List Char))
  | 0, _, _ => .error "convert: max depth exceeded"
  | fuel + 1, idx, px =>
      match nodes.get? idx with
      | none => .error "convert: bad node index"
      | some n =>
          let here := if n.eow then [px] else []
          (sortChildren n.children).foldlM
            (fun acc kv =>
              (convertRec nodes fuel kv.2 (px ++ [kv.1])).map (acc ++ ·))
            here

/-- `parse_body`: run the state machine over the joined body lines, then
convert the arena from the root.  The result is the decoded word list in
traversal (lexicographic) order — the key set of the `fst` map the source
builds. -/
def parse_body (input : List String) (base : Nat) : Except String (List String) :=
  match processAll Builder.new .inWord ((input.map String.data).flatten) base with
  | .error e => .error e
  | .ok (b, _) =>
      (convertRec b.nodes 1024 0 []).map (fun ws => ws.map (fun l => ⟨l⟩))

structure Header where
  version : String
  base : Nat
deriving DecidableEq, Repr

/-- `str::parse::<u8>`. -/
def parse_u8 (s : String) : Option Nat :=
  match parseRadix s.data 10 with
  | some n => if n ≤ 255 then some n else none
  | none => none

/-- The loop of `parse_header`: `counter` counts `input.get` calls, so on
exit it is the index just past the `__DATA__` line (or `len + 1` when the
sentinel is missing). -/
def parse_header_aux : List String → Nat → Option String → Option Nat →
    Except String (Nat × Option String × Option Nat)
  | [], counter, v, b => .ok (counter + 1, v, b)
  | line :: rest, counter, v, b =>
      if List.isSuffixOf "__DATA__".data line.data then .ok (counter + 1, v, b)
      else
        let v2 := if List.isPrefixOf "TrieXv".data line.data then
            some (⟨line.data.drop 6⟩ : String)
          else v
        if List.isPrefixOf "base=".data line.data then
          match parse_u8 ⟨line.data.drop 5⟩ with
          | none => .error "header: unparsable base"
          | some n => parse_header_aux rest (counter + 1) v2 (some n)
        else parse_header_aux rest (counter + 1) v2 b

/-- `parse_header`: the final `version.unwrap()` / `base.unwrap()` are
errors when the header lines are missing. -/
def parse_header (input : List String) : Except String (Nat × Header) :=
  match parse_header_aux input 0 none none with
  | .error e => .error e
  | .ok (counter, v, b) =>
      match v with
      | none => .error "header: missing version"
      | some ver =>
          match b with
          | none => .error "header: missing base"
          | some base => .ok (counter, ⟨ver, base⟩)

/-- `parse_trie`: header, then body from the line after `__DATA__`
(`&input[counter..]` panics when `counter` exceeds the length). -/
def parse_trie (input : List String) : Except String (Header × List String) :=
  match parse_header input with
  | .error e => .error e
  | .ok (counter, header) =>
      if counter ≤ input.length then
        (parse_body (input.drop counter) header.base).map (fun ws => (header, ws))
      else .error "parse_trie: body slice out of range"

/-- `str::lines` as used by `file_to_lines` (the gzip path is not exercised
here: the inputs below are plain text). -/
def rustLines (s : String) : List String :=
  if s.data = [] then []
  else
    let parts := splitChars s.data (· = '\n')
    let parts := if parts.getLast? = some [] then parts.dropLast else parts
    parts.map (fun l =>
      (⟨if l.getLast? = some '\r' then l.dropLast else l⟩ : String))

/-- `CspellTrie::parse_trie` on a file with the given text content: split
into lines, decode, return the decoded word enumeration. -/
def cspell_parse_trie (content : String) : Except String (List String) :=
  (parse_trie (rustLines content)).map (fun p => p.2)

/-! ## Model of `src/code.rs`: the identifier analyzer -/

/-- The fields of a tree-sitter node the analyzer reads (the parser is an
opaque collaborator; a node is its byte range, start position, namedness
and child count). -/
structure TSNode where
  start_byte : Nat
  end_byte : Nat
  row : Nat
  col : Nat
  is_named : Bool
  child_count : Nat
deriving DecidableEq, Repr

structure Typo where
  line : Nat
  column : Nat
  length : Nat
  word : String
  suggestion : Option String
  source : String
deriving DecidableEq, Repr

/-- `Typo::from_node`: position is the node's start row/column plus one;
length is the node's byte span `end_byte - start_byte`. -/
def Typo.from_node (word : String) (node : TSNode) (source_code : String)
    (sug : Option String) : Typo :=
  { line := node.row + 1, column := node.col + 1,
    length := node.end_byte - node.start_byte,
    word := word, suggestion := sug, source := source_code }

/-- `str::split_whitespace`. -/
def split_whitespace (s : String) : List String :=
  ((splitChars s.data Char.isWhitespace).map (fun l => (⟨l⟩ : String))).filter
    (fun p => p ≠ "")

/-- `&source_code[start_byte..end_byte]`: byte slicing; a panic (range out
of bounds or not on character boundaries) is `none`. -/
def nodeText (src : String) (n : TSNode) : Option String :=
  let bytes := strBytes src
  if n.start_byte ≤ n.end_byte ∧ n.end_byte ≤ bytes.length then
    utf8ToString ((bytes.drop n.start_byte).take (n.end_byte - n.start_byte))
  else none

/-- `Vec::dedup_by` on the `(word, line, column)` key: drop an element equal
to the last kept one. -/
def dedupTyposAux (last : Typo) : List Typo → List Typo
  | [] => []
  | y :: rest =>
      if y.word = last.word ∧ y.line = last.line ∧ y.column = last.column then
        dedupTyposAux last rest
      else y :: dedupTyposAux y rest

def dedupTypos : List Typo → List Typo
  | [] => []
  | x :: rest => x :: dedupTyposAux x rest

/-- The word loop of `handle_node` at one node: on a named leaf, each
whitespace-split word of the node's text longer than one byte is fed to the
identifier splitter, and a failure emits `Typo::from_node`. -/
def leafTypos (words : MultiTrie) (node : TSNode) (source_code : String)
    (text : String) : List Typo :=
  if node.is_named ∧ node.child_count = 0 then
    (split_whitespace text).foldl
      (fun acc w =>
        if strLen w > 1 then
          match words.handle_identifier w with
          | some typo => acc ++ [Typo.from_node typo node source_code none]
          | none => acc
        else acc)
      []
  else []

/-- `handle_node` restricted to a leaf node (its child loop is vacuous):
slice the node's text, collect the word loop's typos, deduplicate. -/
def handle_node_leaf (words : MultiTrie) (node : TSNode) (source_code : String) :
    Option (List Typo) :=
  match nodeText source_code node with
  | none => none
  | some text => some (dedupTypos (leafTypos words node source_code text))

/-! ## Concrete fixtures used by the theorems -/

/-- Members holding exactly {hello, world, http} and {client, def}: the S6
fixture of the spec. -/
def s6Multi : MultiTrie :=
  ⟨[Trie.fromRules [Rule.allow "hello", Rule.allow "world", Rule.allow "http"],
    Trie.fromRules [Rule.allow "client", Rule.allow "def"]]⟩

/-- Two members whose fuzzy candidates for "hello" score 4/5 and 1. -/
def c6Multi : MultiTrie :=
  ⟨[Trie.fromRules [Rule.allow "hella"], Trie.fromRules [Rule.allow "hello"]]⟩

/-- The S5 trie body (absolute references in base 32). -/
def s5Body : String :=
  "\\'cause$5sup$3tis$2wa#9;<4\\0th$2$\\1st$2$\\2nd$2$\\3r#g;"

/-- A minimal TrieXv3 file: one word `a`. -/
def trieXv3Content : String := "TrieXv3\nbase=10\n__DATA__\na$"

/-- A named leaf node spanning bytes 0..7 starting at row 3, column 5. -/
def c9Node : TSNode := ⟨0, 7, 3, 5, true, 0⟩

/-- U+0663, ARABIC-INDIC DIGIT THREE: `char::is_numeric` holds of it, but
it is not an ASCII digit, so `to_digit(10)` returns `None` on it. -/
def arabicThree : Char := Char.ofNat 0x663

/-- A builder whose position stack has two entries, so popping one entry
and re-dispatching would succeed. -/
def removeBuilder : Builder := ⟨[⟨false, []⟩], [0, 0], []⟩

/-- The Typo the analyzer emits for `c9Node` over the source "xx zzzz"
against an empty multi-index. -/
def c9Typo : Typo :=
  { line := 4, column := 6, length := 7, word := "zzzz", suggestion := none,
    source := "xx zzzz" }

/-! # Theorems -/

theorem isValidChar_of_lt (n : Nat) (h : n < 0xd800) : n.isValidChar :=
  Or.inl h

theorem toNat_ofNat_of_lt (n : Nat) (h : n < 0xd800) :
    (Char.ofNat n).toNat = n := by
  unfold Char.ofNat
  rw [dif_pos (isValidChar_of_lt n h)]
  simp [Char.ofNatAux, Char.toNat, UInt32.toNat, UInt32.ofNat']

theorem to_ascii_lowercase_char_notUpper (c : Char) :
    notAsciiUpper (to_ascii_lowercase_char c) = true := by
  unfold to_ascii_lowercase_char notAsciiUpper
  by_cases h : 65 ≤ c.toNat ∧ c.toNat ≤ 90
  · rw [if_pos h]
    have hv : (Char.ofNat (c.toNat + 32)).toNat = c.toNat + 32 :=
      toNat_ofNat_of_lt _ (by omega)
    simp only [hv]
    simp
    omega
  · rw [if_neg h]
    simp
    omega

theorem string_data_inj {a b : String} (h : a.data = b.data) : a = b := by
  cases a
  cases b
  exact congrArg String.mk h

theorem find?_set_self (ch : Children) (c : Char) (n : TrieNode) :
    (ch.set c n).find? c = some n := by
  match ch with
  | .nil => simp [Children.set, Children.find?]
  | .cons k m rest =>
      by_cases h : c = k
      · simp [Children.set, Children.find?, h]
      · simp only [Children.set, if_neg h]
        simp [Children.find?, h]
        exact find?_set_self rest c n

theorem find?_set_other (ch : Children) (c c' : Char) (n : TrieNode)
    (h : c' ≠ c) : (ch.set c n).find? c' = ch.find? c' := by
  match ch with
  | .nil => simp [Children.set, Children.find?, h]
  | .cons k m rest =>
      by_cases hk : c = k
      · subst hk
        simp [Children.set, Children.find?, h]
      · simp only [Children.set, if_neg hk]
        by_cases hk' : c' = k
        · simp [Children.find?, hk']
        · simp only [Children.find?, if_neg hk']
          exact find?_set_other rest c c' n h

/-- Inserting word `w` decides membership at `w` and leaves every other
word's membership unchanged. -/
theorem containsNode_insertNode (w : List Char) (node : TrieNode)
    (v : List Char) (d : TrieData) :
    containsNode (insertNode node w d) v =
      if v = w then !d.disallow else containsNode node v := by
  match w, node, v with
  | [], .mk dat ch, [] => simp [insertNode, containsNode]
  | [], .mk dat ch, c :: cs => simp [insertNode, containsNode]
  | c :: cs, .mk dat ch, [] => simp [insertNode, containsNode]
  | c :: cs, .mk dat ch, c' :: cs' =>
      simp only [insertNode, containsNode]
      by_cases hc : c' = c
      · subst hc
        rw [find?_set_self]
        show containsNode (insertNode ((ch.find? c').getD TrieNode.empty) cs d) cs' =
          if c' :: cs' = c' :: cs then !d.disallow
          else
            match ch.find? c' with
            | some n => containsNode n cs'
            | none => false
        rw [containsNode_insertNode cs _ cs' d]
        by_cases hcs : cs' = cs
        · subst hcs
          simp
        · rw [if_neg hcs, if_neg (show ¬(c' :: cs' = c' :: cs) by simp [hcs])]
          cases hfind : ch.find? c' with
          | none =>
              cases cs' <;>
                simp [Option.getD, TrieNode.empty, containsNode, Children.find?]
          | some child => simp [Option.getD]
      · rw [find?_set_other ch c c' _ hc,
          if_neg (show ¬(c' :: cs' = c :: cs) by simp [hc])]

theorem contains_foldl (rules : List Rule) (t : Trie) (acc : Option Bool)
    (w : String)
    (hbase : t.contains w = (match acc with
      | some dis => !dis
      | none => Trie.new.contains w)) :
    (rules.foldl fromRulesStep t).contains w =
      (match rules.foldl
        (fun acc r =>
          match r with
          | .allow w2 => if w2 = w then some false else acc
          | .disallow w2 => if w2 = w then some true else acc
          | _ => acc) acc with
      | some dis => !dis
      | none => Trie.new.contains w) := by
  match rules with
  | [] => simpa using hbase
  | r :: rest =>
      simp only [List.foldl_cons]
      apply contains_foldl rest
      match r with
      | .allow w2 =>
          by_cases h : w2 = w
          · subst h
            simp [fromRulesStep, Trie.insert, Trie.contains,
              containsNode_insertNode, TrieData.default]
          · have hne : ¬ w.data = w2.data := fun hd => h (string_data_inj hd.symm)
            simp only [fromRulesStep, Trie.insert, Trie.contains] at *
            rw [containsNode_insertNode, if_neg hne]
            simpa [h] using hbase
      | .disallow w2 =>
          by_cases h : w2 = w
          · subst h
            simp [fromRulesStep, Trie.insert, Trie.contains,
              containsNode_insertNode]
          · have hne : ¬ w.data = w2.data := fun hd => h (string_data_inj hd.symm)
            simp only [fromRulesStep, Trie.insert, Trie.contains] at *
            rw [containsNode_insertNode, if_neg hne]
            simpa [h] using hbase
      | .command c => simpa [fromRulesStep, Trie.contains] using hbase
      | .comment s => simpa [fromRulesStep, Trie.contains] using hbase

/-- Membership in a rule-compiled trie is decided by the last allow/disallow
entry for the word: later rules overwrite earlier ones. -/
theorem contains_fromRules (rules : List Rule) (w : String) :
    (Trie.fromRules rules).contains w =
      (match lastWordStatus rules w with
      | some dis => !dis
      | none => false) := by
  have hnew : Trie.new.contains w = false := by
    cases w with
    | mk data =>
        cases data with
        | nil => rfl
        | cons c cs => rfl
  have := contains_foldl rules Trie.new none w rfl
  rw [Trie.fromRules, this, lastWordStatus]
  cases rules.foldl
      (fun acc r =>
        match r with
        | .allow w2 => if w2 = w then some false else acc
        | .disallow w2 => if w2 = w then some true else acc
        | _ => acc) none with
  | none => exact hnew
  | some dis => rfl

theorem containsAnyAux_iff (l : List Trie) (w : String) :
    containsAnyAux l w = true ↔ ∃ t ∈ l, t.contains w = true := by
  match l with
  | [] => simp [containsAnyAux]
  | t :: rest =>
      by_cases h : t.contains w
      · simp [containsAnyAux, h]
      · simp only [containsAnyAux, if_neg h]
        rw [containsAnyAux_iff rest w]
        simp only [List.mem_cons]
        constructor
        · rintro ⟨u, hu, hc⟩
          exact ⟨u, Or.inr hu, hc⟩
        · rintro ⟨u, hu | hu, hc⟩
          · rw [hu] at hc
            exact absurd hc h
          · exact ⟨u, hu, hc⟩

theorem all_notAsciiUpper_lowered (s : String) :
    (to_ascii_lowercase s).data.all notAsciiUpper = true := by
  simp only [to_ascii_lowercase, List.all_map, List.all_eq_true]
  intro c _
  exact to_ascii_lowercase_char_notUpper c

/-- Every Allow or Disallow rule the line loader produces carries an
ASCII-lowercased word (`to_ascii_lowercase` is applied unconditionally). -/
theorem load_dictionary_line_lowered (line : String) (w : String)
    (h : load_dictionary_line line = Rule.allow w ∨
      load_dictionary_line line = Rule.disallow w) :
    w.data.all notAsciiUpper = true := by
  unfold load_dictionary_line at h
  rcases h with h | h <;>
    · repeat' split at h
      all_goals cases h <;> exact all_notAsciiUpper_lowered _

/-! ### Serialization round-trip lemmas -/

theorem natLE_length (n w : Nat) : (natLE n w).length = w := by
  induction w generalizing n with
  | zero => rfl
  | succ k ih => simp [natLE, ih]

theorem natFromLE_natLE (w n : Nat) (h : n < 256 ^ w) :
    natFromLE (natLE n w) = n := by
  induction w generalizing n with
  | zero =>
      simp only [pow_zero] at h
      simp only [natLE, natFromLE]
      omega
  | succ k ih =>
      have hdiv : n / 256 < 256 ^ k := by
        rw [Nat.div_lt_iff_lt_mul (by norm_num : (0 : Nat) < 256)]
        rw [pow_succ] at h
        omega
      simp only [natLE, natFromLE]
      rw [ih (n / 256) hdiv]
      omega

theorem takeBytes_append (xs rest : List Nat) :
    takeBytes xs.length (xs ++ rest) = some (xs, rest) := by
  induction xs with
  | nil => rfl
  | cons b bs ih => simp [takeBytes, ih]

theorem decVarint_encVarint (n : Nat) (rest : List Nat) (h : n < 2 ^ 64) :
    decVarint (encVarint n ++ rest) = some (n, rest) := by
  unfold encVarint
  by_cases h1 : n < 251
  · simp [decVarint, h1]
  · rw [if_neg h1]
    by_cases h2 : n < 2 ^ 16
    · rw [if_pos h2]
      show decVarint (251 :: (natLE n 2 ++ rest)) = some (n, rest)
      have ht : takeBytes 2 (natLE n 2 ++ rest) = some (natLE n 2, rest) := by
        have := takeBytes_append (natLE n 2) rest
        rwa [natLE_length] at this
      simp [decVarint, ht, natFromLE_natLE 2 n (by norm_num at h2 ⊢; omega)]
    · rw [if_neg h2]
      by_cases h3 : n < 2 ^ 32
      · rw [if_pos h3]
        show decVarint (252 :: (natLE n 4 ++ rest)) = some (n, rest)
        have ht : takeBytes 4 (natLE n 4 ++ rest) = some (natLE n 4, rest) := by
          have := takeBytes_append (natLE n 4) rest
          rwa [natLE_length] at this
        simp [decVarint, ht, natFromLE_natLE 4 n (by norm_num at h3 ⊢; omega)]
      · rw [if_neg h3]
        show decVarint (253 :: (natLE n 8 ++ rest)) = some (n, rest)
        have ht : takeBytes 8 (natLE n 8 ++ rest) = some (natLE n 8, rest) := by
          have := takeBytes_append (natLE n 8) rest
          rwa [natLE_length] at this
        simp [decVarint, ht, natFromLE_natLE 8 n (by norm_num at h ⊢; omega)]

theorem decBool_encBool (b : Bool) (rest : List Nat) :
    decBool (encBool b ++ rest) = some (b, rest) := by
  cases b <;> rfl

theorem decOptData_encOptData (d : Option TrieData) (rest : List Nat) :
    decOptData (encOptData d ++ rest) = some (d, rest) := by
  match d with
  | none => rfl
  | some ⟨b⟩ =>
      show decOptData (1 :: (encBool b ++ rest)) = some (some ⟨b⟩, rest)
      simp [decOptData, decBool_encBool]

theorem char_toNat_lt (c : Char) : c.toNat < 0x110000 := by
  rcases c.valid with h | h
  · exact Nat.lt_trans h (by norm_num)
  · exact h.2

theorem decodeChar_encodeChar (c : Char) (rest : List Nat) :
    decodeChar (encodeChar c ++ rest) = some (c, rest) := by
  have hv : c.toNat.isValidChar := c.valid
  have hlt : c.toNat < 0x110000 := char_toNat_lt c
  have hof : Char.ofNat c.toNat = c := Char.ofNat_toNat c
  unfold encodeChar
  by_cases h1 : c.toNat < 0x80
  · rw [if_pos h1]
    show decodeChar (c.toNat :: rest) = some (c, rest)
    simp [decodeChar, h1, mkChar, hv, hof]
  · rw [if_neg h1]
    by_cases h2 : c.toNat < 0x800
    · rw [if_pos h2]
      show decodeChar ((0xc0 + c.toNat / 0x40) :: ((0x80 + c.toNat % 0x40) :: rest)) =
        some (c, rest)
      have hb0 : ¬ (0xc0 + c.toNat / 0x40 < 0x80) := by omega
      have hb0r : 0xc0 ≤ 0xc0 + c.toNat / 0x40 ∧ 0xc0 + c.toNat / 0x40 < 0xe0 := by omega
      have hc1 : isCont (0x80 + c.toNat % 0x40) = true := by
        simp only [isCont, decide_eq_true_eq]
        omega
      have hn : (0xc0 + c.toNat / 0x40 - 0xc0) * 0x40 + (0x80 + c.toNat % 0x40 - 0x80) =
          c.toNat := by omega
      simp only [decodeChar, if_neg hb0, if_pos hb0r, hc1, if_pos rfl]
      rw [if_pos (by omega : (0x80 : Nat) ≤
        (0xc0 + c.toNat / 0x40 - 0xc0) * 0x40 + (0x80 + c.toNat % 0x40 - 0x80))]
      simp only [hn, mkChar, dif_pos hv, hof]
      simp
    · rw [if_neg h2]
      by_cases h3 : c.toNat < 0x10000
      · rw [if_pos h3]
        show decodeChar ((0xe0 + c.toNat / 0x1000) :: ((0x80 + c.toNat / 0x40 % 0x40) ::
          ((0x80 + c.toNat % 0x40) :: rest))) = some (c, rest)
        have hb0 : ¬ (0xe0 + c.toNat / 0x1000 < 0x80) := by omega
        have hb0r : ¬ (0xc0 ≤ 0xe0 + c.toNat / 0x1000 ∧ 0xe0 + c.toNat / 0x1000 < 0xe0) := by
          omega
        have hb0r3 : 0xe0 ≤ 0xe0 + c.toNat / 0x1000 ∧ 0xe0 + c.toNat / 0x1000 < 0xf0 := by
          omega
        have hc1 : (isCont (0x80 + c.toNat / 0x40 % 0x40) ∧
            isCont (0x80 + c.toNat % 0x40)) := by
          simp only [isCont, decide_eq_true_eq]
          omega
        have hn : (0xe0 + c.toNat / 0x1000 - 0xe0) * 0x1000 +
            (0x80 + c.toNat / 0x40 % 0x40 - 0x80) * 0x40 +
            (0x80 + c.toNat % 0x40 - 0x80) = c.toNat := by omega
        simp only [decodeChar, if_neg hb0, if_neg hb0r, if_pos hb0r3, if_pos hc1]
        rw [if_pos (by omega : (0x800 : Nat) ≤
          (0xe0 + c.toNat / 0x1000 - 0xe0) * 0x1000 +
            (0x80 + c.toNat / 0x40 % 0x40 - 0x80) * 0x40 +
            (0x80 + c.toNat % 0x40 - 0x80))]
        simp only [hn, mkChar, dif_pos hv, hof]
      · rw [if_neg h3]
        show decodeChar ((0xf0 + c.toNat / 0x40000) :: ((0x80 + c.toNat / 0x1000 % 0x40) ::
          ((0x80 + c.toNat / 0x40 % 0x40) :: ((0x80 + c.toNat % 0x40) :: rest)))) =
          some (c, rest)
        have hq : c.toNat / 0x40000 < 5 := by omega
        have hb0 : ¬ (0xf0 + c.toNat / 0x40000 < 0x80) := by omega
        have hb0r : ¬ (0xc0 ≤ 0xf0 + c.toNat / 0x40000 ∧
            0xf0 + c.toNat / 0x40000 < 0xe0) := by omega
        have hb0r3 : ¬ (0xe0 ≤ 0xf0 + c.toNat / 0x40000 ∧
            0xf0 + c.toNat / 0x40000 < 0xf0) := by omega
        have hb0r4 : 0xf0 ≤ 0xf0 + c.toNat / 0x40000 ∧
            0xf0 + c.toNat / 0x40000 < 0xf8 := by omega
        have hc1 : (isCont (0x80 + c.toNat / 0x1000 % 0x40) ∧
            isCont (0x80 + c.toNat / 0x40 % 0x40) ∧
            isCont (0x80 + c.toNat % 0x40)) := by
          simp only [isCont, decide_eq_true_eq]
          omega
        have hn : (0xf0 + c.toNat / 0x40000 - 0xf0) * 0x40000 +
            (0x80 + c.toNat / 0x1000 % 0x40 - 0x80) * 0x1000 +
            (0x80 + c.toNat / 0x40 % 0x40 - 0x80) * 0x40 +
            (0x80 + c.toNat % 0x40 - 0x80) = c.toNat := by omega
        simp only [decodeChar, if_neg hb0, if_neg hb0r, if_neg hb0r3, if_pos hb0r4,
          if_pos hc1]
        rw [if_pos (by omega : (0x10000 : Nat) ≤
          (0xf0 + c.toNat / 0x40000 - 0xf0) * 0x40000 +
            (0x80 + c.toNat / 0x1000 % 0x40 - 0x80) * 0x1000 +
            (0x80 + c.toNat / 0x40 % 0x40 - 0x80) * 0x40 +
            (0x80 + c.toNat % 0x40 - 0x80))]
        simp only [hn, mkChar, dif_pos hv, hof]

theorem one_le_length_encodeChar (c : Char) : 1 ≤ (encodeChar c).length := by
  unfold encodeChar
  dsimp only
  split_ifs <;> simp

theorem one_le_length_encVarint (n : Nat) : 1 ≤ (encVarint n).length := by
  unfold encVarint
  split_ifs <;> simp [natLE_length]

theorem one_le_length_encOptData (d : Option TrieData) :
    1 ≤ (encOptData d).length := by
  cases d <;> simp [encOptData, encBool]

mutual
theorem decodeNode_encodeNode (n : TrieNode) (rest : List Nat) (fuel : Nat)
    (hb : boundedNode n = true) (hf : (encodeNode n).length < fuel) :
    decodeNodeF fuel (encodeNode n ++ rest) = some (n, rest) := by
  match n, fuel with
  | .mk d ch, 0 => exact absurd hf (by omega)
  | .mk d ch, f + 1 =>
      have hb1 : ch.length < 2 ^ 64 := by
        have := hb
        simp only [boundedNode, Bool.and_eq_true, decide_eq_true_eq] at this
        exact this.1
      have hb2 : boundedChildren ch = true := by
        have := hb
        simp only [boundedNode, Bool.and_eq_true, decide_eq_true_eq] at this
        exact this.2
      have hlen : (encOptData d).length + (encVarint ch.length).length +
          (encodeChildren ch).length < f + 1 := by
        have := hf
        simp only [encodeNode, List.length_append] at this
        omega
      have hfc : (encodeChildren ch).length < f := by
        have h1 := one_le_length_encOptData d
        have h2 := one_le_length_encVarint ch.length
        omega
      show decodeNodeF (f + 1)
        (((encOptData d ++ encVarint ch.length) ++ encodeChildren ch) ++ rest) =
        some (.mk d ch, rest)
      simp only [List.append_assoc]
      simp only [decodeNodeF, decOptData_encOptData,
        decVarint_encVarint ch.length _ hb1,
        decodeChildren_encodeChildren ch rest f hb2 hfc]
theorem decodeChildren_encodeChildren (ch : Children) (rest : List Nat) (fuel : Nat)
    (hb : boundedChildren ch = true) (hf : (encodeChildren ch).length < fuel) :
    decodeChildrenF fuel ch.length (encodeChildren ch ++ rest) = some (ch, rest) := by
  match ch, fuel with
  | .nil, 0 => exact absurd hf (by omega)
  | .nil, f + 1 => rfl
  | .cons c n tail, 0 => exact absurd hf (by omega)
  | .cons c n tail, f + 1 =>
      have hb1 : boundedNode n = true := by
        have := hb
        simp only [boundedChildren, Bool.and_eq_true] at this
        exact this.1
      have hb2 : boundedChildren tail = true := by
        have := hb
        simp only [boundedChildren, Bool.and_eq_true] at this
        exact this.2
      have hlen : (encodeChar c).length + (encodeNode n).length +
          (encodeChildren tail).length < f + 1 := by
        have := hf
        simp only [encodeChildren, List.length_append] at this
        omega
      have hchar := one_le_length_encodeChar c
      have hfn : (encodeNode n).length < f := by omega
      have hft : (encodeChildren tail).length < f := by omega
      show decodeChildrenF (f + 1) (tail.length + 1)
        (((encodeChar c ++ encodeNode n) ++ encodeChildren tail) ++ rest) =
        some (.cons c n tail, rest)
      simp only [List.append_assoc]
      simp only [decodeChildrenF, decodeChar_encodeChar,
        decodeNode_encodeNode n _ f hb1 hfn,
        decodeChildren_encodeChildren tail rest f hb2 hft]
end

/-- C8: for every word-index whose children maps fit a `usize` (every Rust
value), `load(dump(x))` succeeds and returns a value structurally equal to
`x`: the same trie of words with the same allow/disallow statuses and the
same options record (cache and case_sensitive flags). -/
theorem c8_load_dump_roundtrip (t : Trie) (h : boundedNode t.root = true) :
    Trie.load (Trie.dump t) = some t := by
  have hf : (encodeNode t.root).length < (Trie.dump t).length + 1 := by
    simp only [Trie.dump, List.length_append]
    omega
  show Trie.load
    ((encodeNode t.root ++ encBool t.options.cache) ++
      encBool t.options.case_sensitive) = some t
  unfold Trie.load
  have hshape :
      ((encodeNode t.root ++ encBool t.options.cache) ++
        encBool t.options.case_sensitive) =
      encodeNode t.root ++
        (encBool t.options.cache ++ (encBool t.options.case_sensitive ++ [])) := by
    simp
  rw [hshape]
  have hf2 : (encodeNode t.root).length <
      (encodeNode t.root ++
        (encBool t.options.cache ++ (encBool t.options.case_sensitive ++ []))).length
        + 1 := by
    simp only [List.length_append]
    omega
  rw [decodeNode_encodeNode t.root _ _ h hf2]
  simp only [decBool_encBool]

/-- C8 witness: a concrete compiled word-index round-trips. -/
theorem c8_roundtrip_witness :
    Trie.load (Trie.dump (Trie.fromRules
      [Rule.allow "ab", Rule.disallow "q", Rule.command Command.caseSensitive])) =
    some (Trie.fromRules
      [Rule.allow "ab", Rule.disallow "q", Rule.command Command.caseSensitive]) :=
  c8_load_dump_roundtrip _ (by decide)

/-! ### Claim theorems for the rule compiler and the multi-index -/

/-- C4 counterexample: the rule list `[Disallow "a", Allow "a"]` contains
both an `Allow("a")` and a `Disallow("a")` entry, yet the compiled
word-index has `contains "a" = true`, not false: the later rule wins. -/
theorem c4_conflict_counterexample :
    (Trie.fromRules [Rule.disallow "a", Rule.allow "a"]).contains "a" ≠ false := by
  decide

/-- C4 (amended): membership in a rule-compiled word-index is decided by the
LAST Allow/Disallow entry for the word — `Trie::insert` replaces the data at
the word's node — so disallow wins only when the Disallow entry comes after
every Allow entry for that word. -/
theorem c4_last_entry_wins (rules : List Rule) (w : String) :
    (Trie.fromRules rules).contains w =
      (match lastWordStatus rules w with
      | some dis => !dis
      | none => false) :=
  contains_fromRules rules w

/-- C7: the multi-index contains a word exactly when some member word-index
returns allow for it; concretely, a Disallow entry in an earlier member does
not veto an Allow entry in a later member. -/
theorem c7_contains_iff_member_allows :
    (∀ (m : MultiTrie) (w : String),
      m.contains w = true ↔ ∃ t ∈ m.inner, t.contains w = true) ∧
    (MultiTrie.mk [Trie.fromRules [Rule.disallow "hi"],
      Trie.fromRules [Rule.allow "hi"]]).contains "hi" = true := by
  refine ⟨fun m w => containsAnyAux_iff m.inner w, ?_⟩
  decide

/-- C10: `Trie::contains` never consults the case_sensitive flag (the two
runs differing only in that flag agree on every word), the rule-line loader
ASCII-lowercases every Allow and Disallow word unconditionally, and the
CaseSensitive command only sets the flag in the options record. -/
theorem c10_case_flag_never_consulted :
    (∀ (root : TrieNode) (cache b1 b2 : Bool) (w : String),
      (Trie.mk root ⟨cache, b1⟩).contains w =
        (Trie.mk root ⟨cache, b2⟩).contains w) ∧
    (∀ line w, (load_dictionary_line line = Rule.allow w ∨
        load_dictionary_line line = Rule.disallow w) →
      w.data.all notAsciiUpper = true) ∧
    (∀ o : TrieOptions, o.add_command Command.caseSensitive =
      { o with case_sensitive := true }) :=
  ⟨fun _ _ _ _ _ => rfl, load_dictionary_line_lowered, fun _ => rfl⟩

/-- C10 witness: the loader lowercases the concrete line "HELLO3". -/
theorem c10_lowercase_witness : "hello3".data.all notAsciiUpper = true :=
  c10_case_flag_never_consulted.2.1 "HELLO3" "hello3" (Or.inl (by decide))

/-- C5 counterexample: against members holding exactly
{hello, world, http, client, def}, the identifier splitter returns the whole
failing segment "helloWrld", not the failing sub-word "Wrld"; and for
"abc_xyz_def" it returns none — every segment has length 3 and the splitter
drops segments of length at most 3 before checking anything. -/
theorem c5_splitter_counterexample :
    s6Multi.handle_identifier "helloWrld" = some "helloWrld" ∧
    s6Multi.handle_identifier "helloWrld" ≠ some "Wrld" ∧
    s6Multi.handle_identifier "abc_xyz_def" = none := by
  refine ⟨by decide, by decide, by decide⟩

/-- C5 (amended): on the S6 fixture the splitter returns none for
helloWorld, HTTP2Client and abc_123_def; for helloWrld it reports the whole
segment "helloWrld"; for abc_xyz_def it returns none because the length-3
segments are dropped, so the absent word "xyz" is never looked up. -/
theorem c5_splitter_behaviour :
    s6Multi.handle_identifier "helloWorld" = none ∧
    s6Multi.handle_identifier "HTTP2Client" = none ∧
    s6Multi.handle_identifier "abc_123_def" = none ∧
    s6Multi.handle_identifier "helloWrld" = some "helloWrld" ∧
    s6Multi.handle_identifier "abc_xyz_def" = none := by
  refine ⟨by decide, by decide, by decide, by decide, by decide⟩

/-! ### The suggestion layer (C6) -/

theorem foldl_minBy (x : ℚ × String) (l : List (ℚ × String)) :
    (l.foldl (fun best y => if y.1 < best.1 then y else best) x = x ∨
      l.foldl (fun best y => if y.1 < best.1 then y else best) x ∈ l) ∧
    (l.foldl (fun best y => if y.1 < best.1 then y else best) x).1 ≤ x.1 ∧
    ∀ p ∈ l, (l.foldl (fun best y => if y.1 < best.1 then y else best) x).1 ≤ p.1 := by
  induction l generalizing x with
  | nil => exact ⟨Or.inl rfl, le_refl _, by simp⟩
  | cons y ys ih =>
      obtain ⟨hmem, hle, hall⟩ := ih (if y.1 < x.1 then y else x)
      simp only [List.foldl_cons]
      refine ⟨?_, ?_, ?_⟩
      · rcases hmem with hm | hm
        · rw [hm]
          split_ifs with hy
          · exact Or.inr (List.mem_cons_self _ _)
          · exact Or.inl rfl
        · exact Or.inr (List.mem_cons_of_mem _ hm)
      · refine le_trans hle ?_
        split_ifs with hy
        · exact le_of_lt hy
        · exact le_refl _
      · intro p hp
        rcases List.mem_cons.mp hp with rfl | hp
        · refine le_trans hle ?_
          split_ifs with hy
          · exact le_refl _
          · exact le_of_not_lt hy
        · exact hall p hp

theorem minByFirst_spec (l : List (ℚ × String)) (x : ℚ × String)
    (h : minByFirst l = some x) : x ∈ l ∧ ∀ p ∈ l, x.1 ≤ p.1 := by
  match l with
  | [] => cases h
  | a :: rest =>
      simp only [minByFirst, Option.some.injEq] at h
      obtain ⟨hmem, hle, hall⟩ := foldl_minBy a rest
      rw [h] at hmem hle hall
      constructor
      · rcases hmem with hm | hm
        · rw [hm]
          exact List.mem_cons_self _ _
        · exact List.mem_cons_of_mem _ hm
      · intro p hp
        rcases List.mem_cons.mp hp with rfl | hp
        · exact hle
        · exact hall p hp

/-- C6 (amended): when `suggestion(w)` returns a candidate, that candidate
comes from the members' `check` results, its normalized Damerau-Levenshtein
similarity to `w` exceeds the 0.7 threshold, and — because the source uses
`min_by`, not `max_by` — it has the LEAST similarity among all candidates;
when no candidate clears the bar (in particular when the minimum does not),
`suggestion` returns none. -/
theorem c6_suggestion_least_similarity (m : MultiTrie) (w s : String)
    (h : m.suggestion w = some s) :
    s ∈ m.inner.filterMap (fun t => t.check w) ∧
    THRESHOLD < normalized_damerau_levenshtein w s ∧
    ∀ c ∈ m.inner.filterMap (fun t => t.check w),
      normalized_damerau_levenshtein w s ≤ normalized_damerau_levenshtein w c := by
  unfold MultiTrie.suggestion at h
  cases hm : minByFirst (suggestionScored m w) with
  | none =>
      rw [hm] at h
      cases h
  | some x =>
      rw [hm] at h
      obtain ⟨q, b⟩ := x
      simp only at h
      by_cases ht : THRESHOLD < q
      · rw [if_pos ht] at h
        injection h with h
        subst h
        obtain ⟨hmem, hmin⟩ := minByFirst_spec _ _ hm
        unfold suggestionScored at hmem
        obtain ⟨c0, hc0, heq⟩ := List.mem_map.mp hmem
        obtain ⟨hq, hb⟩ := Prod.mk.injEq .. |>.mp heq
        subst hb
        refine ⟨hc0, by rw [hq]; exact ht, ?_⟩
        intro c hc
        have h2 := hmin (normalized_damerau_levenshtein w c, c)
          (by
            unfold suggestionScored
            exact List.mem_map_of_mem _ hc)
        rw [← hq] at h2
        exact h2
      · rw [if_neg ht] at h
        cases h

theorem norm_hello_hella :
    normalized_damerau_levenshtein "hello" "hella" = 4 / 5 := by
  unfold normalized_damerau_levenshtein
  rw [if_neg (by decide)]
  rw [show dlDist "hello".data "hella".data = 1 from by decide]
  rw [show (max ("hello" : String).length ("hella" : String).length : Nat) = 5
    from rfl]
  norm_num

theorem norm_hello_hello :
    normalized_damerau_levenshtein "hello" "hello" = 1 := by
  unfold normalized_damerau_levenshtein
  rw [if_neg (by decide)]
  rw [show dlDist "hello".data "hello".data = 0 from by decide]
  rw [show (max ("hello" : String).length ("hello" : String).length : Nat) = 5
    from rfl]
  norm_num

theorem c6_suggestion_eval : c6Multi.suggestion "hello" = some "hella" := by
  unfold MultiTrie.suggestion suggestionScored
  rw [show c6Multi.inner.filterMap (fun t => t.check "hello") =
    ["hella", "hello"] from by decide]
  simp only [List.map_cons, List.map_nil, norm_hello_hella, norm_hello_hello,
    minByFirst, List.foldl_cons, List.foldl_nil]
  norm_num [THRESHOLD]

/-- C6 counterexample: "hello" queries members holding {hella} and {hello};
both candidates clear the threshold, yet `suggestion` returns "hella",
whose similarity (4/5) is strictly below that of the candidate "hello"
(similarity 1) — not the best-ranked candidate. -/
theorem c6_min_by_counterexample :
    c6Multi.suggestion "hello" = some "hella" ∧
    normalized_damerau_levenshtein "hello" "hella" <
      normalized_damerau_levenshtein "hello" "hello" := by
  refine ⟨c6_suggestion_eval, ?_⟩
  rw [norm_hello_hella, norm_hello_hello]
  norm_num

/-- C6 witness: the amended theorem applied to the concrete fixture. -/
theorem c6_least_similarity_witness :
    "hella" ∈ c6Multi.inner.filterMap (fun t => t.check "hello") ∧
    THRESHOLD < normalized_damerau_levenshtein "hello" "hella" ∧
    ∀ c ∈ c6Multi.inner.filterMap (fun t => t.check "hello"),
      normalized_damerau_levenshtein "hello" "hella" ≤
        normalized_damerau_levenshtein "hello" c :=
  c6_suggestion_least_similarity c6Multi "hello" "hella" c6_suggestion_eval

/-! ### The CSpell decoder (C1, C2, C3) -/

/-- C3 counterexample: U+0663 (ARABIC-INDIC DIGIT THREE) is not an ASCII
digit, yet in the Remove state the decoder does not pop one entry and
re-dispatch it as the claim says for "any non-digit character":
`char::is_numeric` holds of it, so the source aborts inside
`to_digit(10).unwrap()` — while the claimed pop-and-redispatch would have
succeeded on this stack. -/
theorem c3_nonascii_numeric_counterexample :
    process_char removeBuilder .remove arabicThree 10 =
      Except.error "remove: to_digit unwrap on None" ∧
    ¬ (process_char removeBuilder .remove arabicThree 10 =
      (popN removeBuilder 1).bind
        (fun b2 => process_char b2 .inWord arabicThree 10)) :=
  ⟨by decide, by decide⟩

/-- C3 (amended): in the decoder Remove state, an ASCII digit d ≥ 2 pops
d − 1 entries from the position stack and stays in Remove; an ASCII
non-digit character pops exactly one entry and is then re-dispatched as if
read in InWord; a non-ASCII numeric character — `char::is_numeric` without
being an ASCII digit — instead panics inside `to_digit(10).unwrap()`;
consequently the body `a$word$<3no$` under base 10 still decodes to exactly
[a, no, word] in sorted order. -/
theorem c3_remove_semantics_amended :
    (∀ (b : Builder) (c : Char) (base : Nat), c.isDigit = true →
      2 ≤ c.toNat - 48 →
      process_char b .remove c base =
        (popN b (c.toNat - 48 - 1)).map (fun b2 => (b2, ParseState.remove))) ∧
    (∀ (b : Builder) (c : Char) (base : Nat), c.toNat ≤ 127 →
      c.isDigit = false →
      process_char b .remove c base =
        (popN b 1).bind (fun b2 => process_char b2 .inWord c base)) ∧
    (∀ (b : Builder) (c : Char) (base : Nat), rust_is_numeric c = true →
      c.isDigit = false →
      process_char b .remove c base =
        Except.error "remove: to_digit unwrap on None") ∧
    parse_body ["a$word$<3no$"] 10 = Except.ok ["a", "no", "word"] := by
  refine ⟨?_, ?_, ?_, by decide⟩
  · intro b c base hd h2
    have hnum : rust_is_numeric c = true := by
      simp [rust_is_numeric, hd]
    have hdig : to_digit_10 c = some (c.toNat - 48) := by
      simp [to_digit_10, hd]
    simp only [process_char]
    rw [if_pos hnum, hdig]
    dsimp only
    rw [if_neg (by omega), if_neg (by omega)]
  · intro b c base hascii hd
    have hnum : rust_is_numeric c = false := by
      simp only [rust_is_numeric, hd, Bool.false_or, decide_eq_false_iff_not]
      omega
    simp only [process_char]
    rw [if_neg (by simp [hnum])]
    cases hp : popN b 1 with
    | error e => rfl
    | ok b2 =>
        dsimp only
        split <;> rfl
  · intro b c base hnum hd
    have hdig : to_digit_10 c = none := by
      simp [to_digit_10, hd]
    simp only [process_char]
    rw [if_pos hnum, hdig]

/-- C3 witness: a digit pop, an ASCII non-digit re-dispatch and a
non-ASCII numeric panic at concrete inputs. -/
theorem c3_remove_amended_witness :
    process_char ⟨[⟨false, []⟩], [0, 0, 0], []⟩ .remove '3' 10 =
      (popN ⟨[⟨false, []⟩], [0, 0, 0], []⟩ 2).map
        (fun b2 => (b2, ParseState.remove)) ∧
    process_char removeBuilder .remove '<' 10 =
      (popN removeBuilder 1).bind
        (fun b2 => process_char b2 .inWord '<' 10) ∧
    process_char removeBuilder .remove arabicThree 10 =
      Except.error "remove: to_digit unwrap on None" :=
  ⟨c3_remove_semantics_amended.1 _ '3' 10 (by decide) (by decide),
   c3_remove_semantics_amended.2.1 removeBuilder '<' 10 (by decide) (by decide),
   c3_remove_semantics_amended.2.2.1 removeBuilder arabicThree 10
     (by decide) (by decide)⟩

/-- C2 (code bug): decoding the S5 body under base 32 does not enumerate
the eleven words the spec and the source's own test expect — it aborts
inside `jump_to` at the `#9;` reference: `add_char` never extends
`pos_string` when it allocates a new node, so `pos_string` is empty and
`pos_string.chars().last().unwrap()` panics. -/
theorem c2_s5_decode_fails :
    parse_body [s5Body] 32 = Except.error "jump_to: empty pos_string" := by
  decide

/-- C1 (code bug): on a cache miss, `compile_inner` for the
`Dictionary::Trie(path)` spec bincode-decodes the raw file bytes via
`Trie::load`, which fails on a textual TrieXv3 stream, while
`CspellTrie::parse_trie` decodes the same content to the word set [a]. -/
theorem c1_trie_compile_skips_decoder :
    compile_trie_spec none (strBytes trieXv3Content) =
      Except.error "Trie::load failed" ∧
    cspell_parse_trie trieXv3Content = Except.ok ["a"] :=
  ⟨by decide, by decide⟩

/-! ### The identifier analyzer (C9) -/

theorem leafTypos_mem (words : MultiTrie) (node : TSNode) (src : String)
    (l : List String) (acc : List Typo) (t : Typo)
    (h : t ∈ l.foldl (fun acc w =>
      if strLen w > 1 then
        match words.handle_identifier w with
        | some typo => acc ++ [Typo.from_node typo node src none]
        | none => acc
      else acc) acc) :
    t ∈ acc ∨ ∃ w, t = Typo.from_node w node src none := by
  induction l generalizing acc with
  | nil => exact Or.inl h
  | cons w ws ih =>
      rw [List.foldl_cons] at h
      rcases ih _ h with hin | hw
      · by_cases hlen : strLen w > 1
        · rw [if_pos hlen] at hin
          cases hmatch : words.handle_identifier w with
          | none =>
              rw [hmatch] at hin
              exact Or.inl hin
          | some ty =>
              rw [hmatch] at hin
              rcases List.mem_append.mp hin with hin | hin
              · exact Or.inl hin
              · exact Or.inr ⟨ty, List.mem_singleton.mp hin⟩
        · rw [if_neg hlen] at hin
          exact Or.inl hin
      · exact Or.inr hw

theorem dedupTyposAux_subset (l : List Typo) (last : Typo) (t : Typo)
    (h : t ∈ dedupTyposAux last l) : t ∈ l := by
  induction l generalizing last with
  | nil => cases h
  | cons y rest ih =>
      unfold dedupTyposAux at h
      split at h
      · exact List.mem_cons_of_mem _ (ih last h)
      · rcases List.mem_cons.mp h with rfl | h
        · exact List.mem_cons_self _ _
        · exact List.mem_cons_of_mem _ (ih y h)

theorem dedupTypos_subset (l : List Typo) (t : Typo)
    (h : t ∈ dedupTypos l) : t ∈ l := by
  match l with
  | [] => cases h
  | x :: rest =>
      rcases List.mem_cons.mp h with rfl | h
      · exact List.mem_cons_self _ _
      · exact List.mem_cons_of_mem _ (dedupTyposAux_subset rest x t h)

/-- C9 (amended): every Typo the analyzer emits at a named leaf node
carries line = start row + 1 and column = start column + 1 as the claim
says, but its length field is the node's byte span
`end_byte - start_byte`, not the length of the suspicious word. -/
theorem c9_typo_position_and_length (words : MultiTrie) (node : TSNode)
    (src : String) (typos : List Typo) (t : Typo)
    (h1 : handle_node_leaf words node src = some typos) (h2 : t ∈ typos) :
    t.line = node.row + 1 ∧ t.column = node.col + 1 ∧
      t.length = node.end_byte - node.start_byte := by
  unfold handle_node_leaf at h1
  cases htext : nodeText src node with
  | none =>
      rw [htext] at h1
      cases h1
  | some text =>
      rw [htext] at h1
      injection h1 with h1
      subst h1
      have h3 : t ∈ leafTypos words node src text := dedupTypos_subset _ _ h2
      unfold leafTypos at h3
      by_cases hn : node.is_named ∧ node.child_count = 0
      · rw [if_pos hn] at h3
        rcases leafTypos_mem words node src _ [] t h3 with hin | ⟨w, rfl⟩
        · cases hin
        · exact ⟨rfl, rfl, rfl⟩
      · rw [if_neg hn] at h3
        cases h3

/-- C9 counterexample: the leaf spanning bytes 0..7 with text "xx zzzz"
(suspicious word "zzzz", 4 characters) emits a Typo whose length field is
7, the node's byte span — not the suspicious word's length. -/
theorem c9_length_counterexample :
    handle_node_leaf ⟨[]⟩ c9Node "xx zzzz" = some [c9Typo] ∧
    ¬ (c9Typo.length = ("zzzz" : String).length) :=
  ⟨by decide, by decide⟩

/-- C9 witness: the amended theorem applied to the concrete leaf. -/
theorem c9_position_witness :
    c9Typo.line = c9Node.row + 1 ∧ c9Typo.column = c9Node.col + 1 ∧
      c9Typo.length = c9Node.end_byte - c9Node.start_byte :=
  c9_typo_position_and_length ⟨[]⟩ c9Node "xx zzzz" [c9Typo] c9Typo
    (by decide) (by decide)

end CargoCsc
